import Mathlib

/-!
Shallow embedding of `generate_surface_meshes.py` (BiventricularSSM).

Numpy arrays are modelled as `List ℝ` / `List (List ℝ)`; the numpy
operations used by the source (reshape to `(-1, 3)`, `np.clip`,
elementwise broadcasting of a ufunc against a 1-D vector, the 2-D matrix
product `@`) are translated operation by operation, with `none`
modelling the exception numpy raises on a shape mismatch.  VTK meshes
are records of vertex positions plus connectivity; the in-place
mutation performed by `pointcloud2surface` (`points.SetPoint` on the
argument, then `return mesh`) is modelled with an explicit store
`ℕ → Mesh` of VTK objects addressed by references.

Empty arrays (zero rows) are not given numpy's full shape checking:
every claim below quantifies over at least one sample and at least one
component, which is also what `generate_synthetic_mesh` validates.
-/

namespace SSM

/-- A VTK unstructured grid as used by `pointcloud2surface`
(src lines 90-107): ordered vertex positions plus the opaque
connectivity (cells as lists of vertex indices), which the core never
touches. -/
structure Mesh where
  points : List (ℝ × ℝ × ℝ)
  cells : List (List ℕ)

/-- Exceptions numpy raises inside `pointcloud2surface`: the reshape
`ValueError` and the out-of-bounds `IndexError`. -/
inductive MeshErr
  | valueError
  | indexError
deriving DecidableEq

/-- The `pointcloud` argument of `pointcloud2surface`: a flat vector,
or an array that is already two-dimensional (`len(pointcloud.shape) == 2`,
src line 99), in which case the reshape is skipped. -/
inductive PC
  | flat (xs : List ℝ)
  | shaped (rows : List (ℝ × ℝ × ℝ))

/-- The call `np.reshape(pointcloud, (-1, 3))` (src line 100): split a
flat vector into rows of three; `none` models the `ValueError` numpy
raises when the length is not a multiple of three. -/
def reshape3 : List ℝ → Option (List (ℝ × ℝ × ℝ))
  | [] => some []
  | x :: y :: z :: rest => (reshape3 rest).map (fun rows => (x, y, z) :: rows)
  | _ => none

/-- The function `pointcloud2surface` (src lines 90-107): reshape a flat
point cloud to `V × 3`, then loop `for pt_idx in range(points.GetNumberOfPoints())`
overwriting the mesh's vertex positions from the rows.  The loop runs
over the mesh's own vertex count, so extra rows are silently ignored,
and a row list shorter than the vertex count raises `IndexError` at the
first missing row (the incomplete in-place mutation preceding that
raise is not modelled). -/
def pointcloud2surface (pc : PC) (m : Mesh) : Except MeshErr Mesh :=
  match (match pc with | .flat xs => reshape3 xs | .shaped rows => some rows) with
  | none => .error .valueError
  | some rows =>
    if m.points.length ≤ rows.length then
      .ok { m with points := rows.take m.points.length }
    else .error .indexError

/-- Store-level view of `pointcloud2surface`: VTK objects live in a
store `ℕ → Mesh`; the function mutates the object at reference `r` in
place (`points = mesh.GetPoints(); points.SetPoint(...)`) and returns
the very same reference (`return mesh`, src line 107 — no copy). -/
def pointcloud2surfaceRef (pc : PC) (r : ℕ) (h : ℕ → Mesh) :
    Option (ℕ × (ℕ → Mesh)) :=
  match pointcloud2surface pc (h r) with
  | .ok m => some (r, Function.update h r m)
  | .error _ => none

/-- The call `np.clip(x, lo, hi)`, elementwise saturation:
`min hi (max lo x)`. -/
noncomputable def clip (lo hi x : ℝ) : ℝ := min hi (max lo x)

/-- The raw `np.random.normal(0, 1, (num_samples, num_components))`
draw matrix (src line 84), with the underlying stream of standard
normal variates abstracted as a function of the position. -/
def rawDraws (n K : ℕ) (draws : ℕ → ℕ → ℝ) : List (List ℝ) :=
  (List.range n).map (fun i => (List.range K).map (fun j => draws i j))

/-- Numpy broadcasting of a binary ufunc between one row of an `(n, K)`
array and a 1-D vector of length `L`: legal iff `L = K`, `L = 1`, or
`K = 1`; anything else raises. -/
def bcastRow (f : ℝ → ℝ → ℝ) (v r : List ℝ) : Option (List ℝ) :=
  if r.length = v.length then some (List.zipWith f r v)
  else if v.length = 1 then some (r.map (fun x => f x (v.getD 0 0)))
  else if r.length = 1 then some (v.map (fun y => f (r.getD 0 0) y))
  else none

/-- Numpy broadcasting of a binary ufunc between a 2-D array (given as
its list of rows) and a 1-D vector, row by row. -/
def bcastAll (f : ℝ → ℝ → ℝ) (v : List ℝ) : List (List ℝ) → Option (List (List ℝ))
  | [] => some []
  | r :: rs =>
    match bcastRow f v r, bcastAll f v rs with
    | some r2, some rs2 => some (r2 :: rs2)
    | _, _ => none

/-- Row `i`, column `j` of a list-of-lists matrix (defaulting to 0
outside the carried shape). -/
def entry (M : List (List ℝ)) (i j : ℕ) : ℝ := (M.getD i []).getD j 0

/-- The function `sample` (src lines 73-88): draw `(n, K)` standard
normal variates, clip them elementwise into `[-boundary, boundary]`
unless `boundary == -1`, then scale by `np.sqrt(explained_variance)`
via numpy broadcasting (`none` models the broadcast error). -/
noncomputable def sample (n K : ℕ) (draws : ℕ → ℕ → ℝ)
    (explained_variance : List ℝ) (boundary : ℝ) : Option (List (List ℝ)) :=
  let s := rawDraws n K draws
  let s2 := if boundary ≠ -1 then s.map (List.map (clip (-boundary) boundary)) else s
  bcastAll (· * ·) (explained_variance.map Real.sqrt) s2

/-- The 2-D matrix product `A @ B` (src line 168): every row of `A`
must have exactly as many entries as `B` has rows; `none` models the
shape error numpy raises otherwise. -/
noncomputable def matmul (A B : List (List ℝ)) : Option (List (List ℝ)) :=
  if A.all (fun r => r.length = B.length) then
    some (A.map (fun r =>
      (List.range (B.headD []).length).map
        (fun d => (List.zipWith (fun x row => x * row.getD d 0) r B).sum)))
  else none

/-- The Reconstructor, `samples @ components + mean` (src line 168):
matrix product followed by the broadcast addition of the mean row. -/
noncomputable def reconstruct (samples components : List (List ℝ))
    (mean : List ℝ) : Option (List (List ℝ)) :=
  (matmul samples components).bind (fun M => bcastAll (· + ·) mean M)

/-- The four validation failures `generate_synthetic_mesh` reports with
a `print` before `return False` (src lines 138-155). -/
inductive GenError
  | pathNotFound
  | invalidSampleCount
  | invalidComponentCount
  | invalidBoundary
deriving DecidableEq

/-- Observable side effects of `generate_synthetic_mesh`: the error
`print`s, the `os.mkdir(output_path)`, and the per-sample
`write_vtk_file`.  The output file of sample `i` is identified by its
index: the concrete name `synthetic{str(i).zfill(order)}.vtk` depends
on the binary64 evaluation of `math.floor(math.log(num_samples, 10)) + 1`
(src line 171), which is outside this embedding. -/
inductive Event
  | printError (e : GenError)
  | mkdirOutput
  | writeFile (sampleIndex : ℕ) (m : Mesh)

/-- Python-level outcome of a call to `generate_synthetic_mesh`: an
explicit `return False`, the implicit `return None` reached after the
write loop, or an uncaught exception from the numeric pipeline. -/
inductive GenOutcome
  | returnedFalse
  | returnedNone
  | raised
deriving DecidableEq

/-- The data behind the external collaborators of
`generate_synthetic_mesh`: the two filesystem facts it branches on and
the arrays delivered by `load_h5py` / `load_mean_vtk`. -/
structure Env where
  inputExists : Bool
  outputExists : Bool
  components : List (List ℝ)
  mean : List ℝ
  explained_variance : List ℝ
  meanMesh : Mesh

/-- Events emitted before any validation: `os.mkdir(output_path)` when
the output directory does not exist yet (src lines 142-143). -/
def preEvents (env : Env) : List Event :=
  if env.outputExists then [] else [.mkdirOutput]

/-- The per-sample loop of `generate_synthetic_mesh` (src lines
170-173): every iteration passes the SAME reference `r` — the single
`mean_vtk` loaded once at src line 159 — to `pointcloud2surface`, and
writes the mesh behind the reference that call returns. -/
def genLoopRef (r : ℕ) : List (List ℝ) → (ℕ → Mesh) → ℕ →
    Option (List Event × (ℕ → Mesh))
  | [], h, _ => some ([], h)
  | pc :: rest, h, i =>
    match pointcloud2surfaceRef (.flat pc) r h with
    | none => none
    | some (rs, h2) =>
      match genLoopRef r rest h2 (i + 1) with
      | none => none
      | some (evs, hf) => some (.writeFile i (h2 rs) :: evs, hf)

/-- The function `generate_synthetic_mesh` (src lines 124-173): input
path check, `mkdir` of a missing output directory, the three parameter
validations in source order (each a `print` plus `return False`), then
load, truncation of `components` / `explained_variance` to
`num_components`, one batched `sample` call, the reconstruction
`samples @ components + mean`, and the write loop over the one template
object, placed at store address 0. -/
noncomputable def generate_synthetic_mesh (env : Env) (draws : ℕ → ℕ → ℝ)
    (num_samples num_components : ℤ) (boundary : ℝ) :
    List Event × GenOutcome :=
  if env.inputExists = false then
    ([.printError .pathNotFound], .returnedFalse)
  else if num_samples ≤ 0 then
    (preEvents env ++ [.printError .invalidSampleCount], .returnedFalse)
  else if 95 ≤ num_components ∨ num_components ≤ 0 then
    (preEvents env ++ [.printError .invalidComponentCount], .returnedFalse)
  else if ¬ (boundary = -1 ∨ (0 < boundary ∧ boundary ≤ 5)) then
    (preEvents env ++ [.printError .invalidBoundary], .returnedFalse)
  else
    match (sample num_samples.toNat num_components.toNat draws
        (env.explained_variance.take num_components.toNat) boundary).bind
        (fun s => reconstruct s (env.components.take num_components.toNat)
          env.mean) with
    | none => (preEvents env, .raised)
    | some pcs =>
      match genLoopRef 0 pcs (fun _ => env.meanMesh) 0 with
      | none => (preEvents env, .raised)
      | some (ws, _) => (preEvents env ++ ws, .returnedNone)

/-! Basic indexing lemmas for the list-of-lists matrix model. -/

theorem getD_map {α β : Type} (g : α → β) (l : List α) (i : ℕ) (dB : β) (dA : α)
    (h : i < l.length) : (l.map g).getD i dB = g (l.getD i dA) := by
  induction l generalizing i with
  | nil => simp at h
  | cons a l ih =>
    cases i with
    | zero => simp
    | succ n =>
      simp only [List.map_cons, List.getD_cons_succ]
      exact ih n (by simpa using h)

theorem getD_range (n i : ℕ) (h : i < n) (d : ℕ) :
    (List.range n).getD i d = i := by
  rw [List.getD_eq_getElem _ d (by simpa using h)]
  simp

theorem getD_zipWith {α β γ : Type} (f : α → β → γ) (as : List α) (bs : List β)
    (i : ℕ) (d : γ) (da : α) (db : β) (h1 : i < as.length) (h2 : i < bs.length) :
    (List.zipWith f as bs).getD i d = f (as.getD i da) (bs.getD i db) := by
  induction as generalizing bs i with
  | nil => simp at h1
  | cons a as ih =>
    cases bs with
    | nil => simp at h2
    | cons b bs =>
      cases i with
      | zero => simp
      | succ n =>
        simp only [List.zipWith_cons_cons, List.getD_cons_succ]
        exact ih bs n (by simpa using h1) (by simpa using h2)

theorem getD_take {α : Type} (l : List α) (n i : ℕ) (d : α) (h : i < n) :
    (l.take n).getD i d = l.getD i d := by
  induction l generalizing n i with
  | nil => simp
  | cons a l ih =>
    cases n with
    | zero => exact absurd h (Nat.not_lt_zero i)
    | succ n =>
      cases i with
      | zero => simp
      | succ j =>
        simp only [List.take_succ_cons, List.getD_cons_succ]
        exact ih n j (by omega)

/-! Shape and content of `reshape3`. -/

theorem reshape3_some_length (xs : List ℝ) (rows : List (ℝ × ℝ × ℝ))
    (h : reshape3 xs = some rows) : xs.length = 3 * rows.length := by
  induction xs using reshape3.induct generalizing rows with
  | case1 =>
    simp [reshape3] at h
    subst h; simp
  | case2 x y z rest ih =>
    simp only [reshape3, Option.map_eq_some'] at h
    obtain ⟨rows0, h0, hrows⟩ := h
    subst hrows
    simp [ih rows0 h0]
    ring
  | case3 t h1 h2 =>
    cases t with
    | nil => exact absurd rfl h1
    | cons a u =>
      cases u with
      | nil => simp [reshape3] at h
      | cons b u2 =>
        cases u2 with
        | nil => simp [reshape3] at h
        | cons c u3 => exact absurd rfl (h2 a b c u3)

theorem reshape3_some_getD (xs : List ℝ) (rows : List (ℝ × ℝ × ℝ))
    (h : reshape3 xs = some rows) (i : ℕ) (hi : i < rows.length)
    (d : ℝ × ℝ × ℝ) :
    rows.getD i d = (xs.getD (3 * i) 0, xs.getD (3 * i + 1) 0,
      xs.getD (3 * i + 2) 0) := by
  induction xs using reshape3.induct generalizing rows i with
  | case1 =>
    simp [reshape3] at h
    subst h; simp at hi
  | case2 x y z rest ih =>
    simp only [reshape3, Option.map_eq_some'] at h
    obtain ⟨rows0, h0, hrows⟩ := h
    subst hrows
    cases i with
    | zero => simp
    | succ j =>
      have e1 : (x :: y :: z :: rest).getD (3 * (j + 1)) 0 = rest.getD (3 * j) 0 := by
        rw [show 3 * (j + 1) = 3 * j + 1 + 1 + 1 by ring]
        simp [List.getD_cons_succ]
      have e2 : (x :: y :: z :: rest).getD (3 * (j + 1) + 1) 0 = rest.getD (3 * j + 1) 0 := by
        rw [show 3 * (j + 1) + 1 = 3 * j + 1 + 1 + 1 + 1 by ring]
        simp [List.getD_cons_succ]
      have e3 : (x :: y :: z :: rest).getD (3 * (j + 1) + 2) 0 = rest.getD (3 * j + 2) 0 := by
        rw [show 3 * (j + 1) + 2 = 3 * j + 2 + 1 + 1 + 1 by ring]
        simp [List.getD_cons_succ]
      rw [List.getD_cons_succ, ih rows0 h0 j (by simpa using hi), e1, e2, e3]
  | case3 t h1 h2 =>
    cases t with
    | nil => exact absurd rfl h1
    | cons a u =>
      cases u with
      | nil => simp [reshape3] at h
      | cons b u2 =>
        cases u2 with
        | nil => simp [reshape3] at h
        | cons c u3 => exact absurd rfl (h2 a b c u3)

theorem reshape3_of_mod (xs : List ℝ) (h : xs.length % 3 = 0) :
    ∃ rows, reshape3 xs = some rows := by
  induction xs using reshape3.induct with
  | case1 => exact ⟨[], rfl⟩
  | case2 x y z rest ih =>
    obtain ⟨rows0, h0⟩ := ih (by simp only [List.length_cons] at h; omega)
    exact ⟨(x, y, z) :: rows0, by simp [reshape3, h0]⟩
  | case3 t h1 h2 =>
    cases t with
    | nil => exact absurd rfl h1
    | cons a u =>
      cases u with
      | nil => simp at h
      | cons b u2 =>
        cases u2 with
        | nil => simp only [List.length_cons, List.length_nil] at h; omega
        | cons c u3 => exact absurd rfl (h2 a b c u3)

theorem reshape3_none_of_mod (xs : List ℝ) (h : xs.length % 3 ≠ 0) :
    reshape3 xs = none := by
  cases hr : reshape3 xs with
  | none => rfl
  | some rows => exact absurd (by simp [reshape3_some_length xs rows hr, Nat.mul_mod_right]) h

/-! Broadcasting against an equal-length vector, draw-matrix shape, and
the resulting specification of `sample`. -/

theorem bcastAll_zip (f : ℝ → ℝ → ℝ) (v : List ℝ) (M : List (List ℝ))
    (h : ∀ r ∈ M, r.length = v.length) :
    bcastAll f v M = some (M.map (fun r => List.zipWith f r v)) := by
  induction M with
  | nil => rfl
  | cons r rs ih =>
    have hr : r.length = v.length := h r (by simp)
    have hrs := ih (fun r2 hr2 => h r2 (by simp [hr2]))
    simp [bcastAll, bcastRow, hr, hrs]

theorem rawDraws_length (n K : ℕ) (draws : ℕ → ℕ → ℝ) :
    (rawDraws n K draws).length = n := by
  simp [rawDraws]

theorem rawDraws_mem_length (n K : ℕ) (draws : ℕ → ℕ → ℝ) (r : List ℝ)
    (h : r ∈ rawDraws n K draws) : r.length = K := by
  simp only [rawDraws, List.mem_map] at h
  obtain ⟨i, _, hr⟩ := h
  simp [← hr]

theorem rawDraws_getD_length (n K : ℕ) (draws : ℕ → ℕ → ℝ) (i : ℕ) (hi : i < n) :
    ((rawDraws n K draws).getD i []).length = K := by
  unfold rawDraws
  rw [getD_map _ _ i [] 0 (by simpa using hi)]
  simp

theorem rawDraws_entry (n K : ℕ) (draws : ℕ → ℕ → ℝ) (i j : ℕ)
    (hi : i < n) (hj : j < K) : entry (rawDraws n K draws) i j = draws i j := by
  unfold entry rawDraws
  rw [getD_map _ _ i [] 0 (by simpa using hi), getD_range n i hi,
    getD_map _ _ j 0 0 (by simpa using hj), getD_range K j hj]

theorem entry_map_map (g : ℝ → ℝ) (M : List (List ℝ)) (i j : ℕ)
    (hi : i < M.length) (hj : j < (M.getD i []).length) :
    entry (M.map (List.map g)) i j = g (entry M i j) := by
  unfold entry
  rw [getD_map (List.map g) M i [] [] hi, getD_map g _ j 0 0 hj]

theorem entry_zip (f : ℝ → ℝ → ℝ) (v : List ℝ) (M : List (List ℝ)) (i j : ℕ)
    (hi : i < M.length) (hj1 : j < (M.getD i []).length) (hj2 : j < v.length) :
    entry (M.map (fun r => List.zipWith f r v)) i j =
      f (entry M i j) (v.getD j 0) := by
  unfold entry
  rw [getD_map _ M i [] [] hi, getD_zipWith f _ _ j 0 0 0 hj1 hj2]

theorem sample_spec (n K : ℕ) (draws : ℕ → ℕ → ℝ) (ev : List ℝ) (b : ℝ)
    (hlen : ev.length = K) :
    ∃ res, sample n K draws ev b = some res ∧ res.length = n ∧
      (∀ r ∈ res, r.length = K) ∧
      (b = -1 → ∀ i j, i < n → j < K →
        entry res i j = draws i j * Real.sqrt (ev.getD j 0)) ∧
      (b ≠ -1 → ∀ i j, i < n → j < K →
        entry res i j = clip (-b) b (draws i j) * Real.sqrt (ev.getD j 0)) := by
  have hv : (ev.map Real.sqrt).length = K := by simp [hlen]
  have hvget : ∀ j, j < K → (ev.map Real.sqrt).getD j 0 = Real.sqrt (ev.getD j 0) := by
    intro j hj
    rw [getD_map Real.sqrt ev j 0 0 (by omega)]
  by_cases hb : b = -1
  · have hcond : ¬ (b ≠ -1) := by simp [hb]
    have hrows : ∀ r ∈ rawDraws n K draws, r.length = (ev.map Real.sqrt).length :=
      fun r hr => by rw [rawDraws_mem_length n K draws r hr, hv]
    refine ⟨(rawDraws n K draws).map
      (fun r => List.zipWith (· * ·) r (ev.map Real.sqrt)), ?_, ?_, ?_, ?_, ?_⟩
    · simp only [sample, if_neg hcond]
      exact bcastAll_zip _ _ _ hrows
    · simp [rawDraws_length]
    · intro r hr
      simp only [List.mem_map] at hr
      obtain ⟨r0, hr0, hzip⟩ := hr
      rw [← hzip, List.length_zipWith, rawDraws_mem_length n K draws r0 hr0, hv,
        Nat.min_self]
    · intro _ i j hi hj
      rw [entry_zip _ _ _ i j (by rw [rawDraws_length]; omega)
          (by rw [rawDraws_getD_length n K draws i hi]; omega) (by omega),
        rawDraws_entry n K draws i j hi hj, hvget j hj]
    · intro hb2; exact absurd hb hb2
  · have hclip : ∀ r ∈ (rawDraws n K draws).map (List.map (clip (-b) b)),
        r.length = (ev.map Real.sqrt).length := by
      intro r hr
      simp only [List.mem_map] at hr
      obtain ⟨r0, hr0, hmap⟩ := hr
      rw [← hmap, List.length_map, rawDraws_mem_length n K draws r0 hr0, hv]
    refine ⟨((rawDraws n K draws).map (List.map (clip (-b) b))).map
      (fun r => List.zipWith (· * ·) r (ev.map Real.sqrt)), ?_, ?_, ?_, ?_, ?_⟩
    · simp only [sample, if_pos hb]
      exact bcastAll_zip _ _ _ hclip
    · simp [rawDraws_length]
    · intro r hr
      simp only [List.mem_map] at hr
      obtain ⟨r0, ⟨r1, hr1, hmap⟩, hzip⟩ := hr
      rw [← hzip, List.length_zipWith, ← hmap, List.length_map,
        rawDraws_mem_length n K draws r1 hr1, hv, Nat.min_self]
    · intro hb2; exact absurd hb2 hb
    · intro _ i j hi hj
      have hlenmap : ((rawDraws n K draws).map (List.map (clip (-b) b))).length = n := by
        simp [rawDraws_length]
      have hrowlen : ((((rawDraws n K draws).map (List.map (clip (-b) b)))).getD i []).length = K := by
        rw [getD_map _ _ i [] [] (by rw [rawDraws_length]; omega), List.length_map,
          rawDraws_getD_length n K draws i hi]
      rw [entry_zip _ _ _ i j (by omega) (by omega) (by omega),
        entry_map_map _ _ i j (by rw [rawDraws_length]; omega)
          (by rw [rawDraws_getD_length n K draws i hi]; omega),
        rawDraws_entry n K draws i j hi hj, hvget j hj]

/-! Matrix product and reconstruction. -/

theorem headD_mem {α : Type} (l : List α) (d : α) (h : l ≠ []) :
    l.headD d ∈ l := by
  cases l with
  | nil => exact absurd rfl h
  | cons a t => simp

theorem zip_sum_eq (d : ℕ) (r : List ℝ) (B : List (List ℝ))
    (h : r.length = B.length) :
    (List.zipWith (fun x row => x * row.getD d 0) r B).sum =
      ∑ k ∈ Finset.range r.length, r.getD k 0 * (B.getD k []).getD d 0 := by
  induction r generalizing B with
  | nil => simp
  | cons a r ih =>
    cases B with
    | nil => simp at h
    | cons row B =>
      simp only [List.zipWith_cons_cons, List.sum_cons, List.length_cons]
      rw [Finset.sum_range_succ' _ r.length]
      simp only [List.getD_cons_succ, List.getD_cons_zero]
      rw [ih B (by simpa using h)]
      ring

theorem zip_sum_zero (d K : ℕ) (B : List (List ℝ)) :
    (List.zipWith (fun x row => x * row.getD d 0)
      (List.replicate K (0:ℝ)) B).sum = 0 := by
  induction B generalizing K with
  | nil => simp
  | cons row B ih =>
    cases K with
    | zero => simp
    | succ n =>
      rw [List.replicate_succ]
      simp only [List.zipWith_cons_cons, List.sum_cons, zero_mul, zero_add]
      exact ih n

theorem zipWith_zero_add (l : List ℝ) :
    List.zipWith (· + ·) (List.replicate l.length 0) l = l := by
  induction l with
  | nil => rfl
  | cons a l ih => simp [List.replicate_succ, ih]

theorem matmul_spec (A B : List (List ℝ)) (D : ℕ)
    (hA : ∀ r ∈ A, r.length = B.length) (hB : B ≠ [])
    (hBrows : ∀ row ∈ B, row.length = D) :
    ∃ M, matmul A B = some M ∧ M.length = A.length ∧
      (∀ r ∈ M, r.length = D) ∧
      (∀ i dd, i < A.length → dd < D →
        entry M i dd =
          ∑ k ∈ Finset.range B.length, entry A i k * entry B k dd) := by
  have hD : (B.headD []).length = D := hBrows _ (headD_mem B [] hB)
  have hall : A.all (fun r => r.length = B.length) = true := by
    rw [List.all_eq_true]
    intro r hr
    simpa using hA r hr
  refine ⟨A.map (fun r =>
      (List.range (B.headD []).length).map
        (fun d => (List.zipWith (fun x row => x * row.getD d 0) r B).sum)),
    by unfold matmul; rw [if_pos hall], by simp, ?_, ?_⟩
  · intro r hr
    simp only [List.mem_map] at hr
    obtain ⟨r0, _, hmap⟩ := hr
    rw [← hmap, List.length_map, List.length_range, hD]
  · intro i dd hi hdd
    have hAi : (A.getD i []).length = B.length := by
      rw [List.getD_eq_getElem A [] hi]
      exact hA _ (List.getElem_mem hi)
    unfold entry
    rw [getD_map _ A i [] [] hi,
      getD_map _ _ dd 0 0 (by rw [List.length_range, hD]; omega),
      getD_range _ dd (by rw [hD]; omega),
      zip_sum_eq dd _ B hAi, hAi]

theorem reconstruct_spec (A B : List (List ℝ)) (mean : List ℝ) (D : ℕ)
    (hA : ∀ r ∈ A, r.length = B.length) (hB : B ≠ [])
    (hBrows : ∀ row ∈ B, row.length = D) (hmean : mean.length = D) :
    ∃ P, reconstruct A B mean = some P ∧ P.length = A.length ∧
      (∀ r ∈ P, r.length = D) ∧
      ∀ i dd, i < A.length → dd < D →
        entry P i dd =
          (∑ k ∈ Finset.range B.length, entry A i k * entry B k dd) +
            mean.getD dd 0 := by
  obtain ⟨M, hM, hMlen, hMrows, hMe⟩ := matmul_spec A B D hA hB hBrows
  have hadd : bcastAll (· + ·) mean M =
      some (M.map (fun r => List.zipWith (· + ·) r mean)) :=
    bcastAll_zip _ _ _ (fun r hr => by rw [hMrows r hr, hmean])
  refine ⟨M.map (fun r => List.zipWith (· + ·) r mean), ?_, ?_, ?_, ?_⟩
  · unfold reconstruct
    rw [hM, Option.some_bind, hadd]
  · rw [List.length_map, hMlen]
  · intro r hr
    simp only [List.mem_map] at hr
    obtain ⟨r0, hr0, hmap⟩ := hr
    rw [← hmap, List.length_zipWith, hMrows r0 hr0, hmean, Nat.min_self]
  · intro i dd hi hdd
    rw [entry_zip _ _ _ i dd (by omega)
        (by rw [List.getD_eq_getElem M [] (by omega),
              hMrows _ (List.getElem_mem (by omega))]
            omega)
        (by omega),
      hMe i dd hi hdd]

theorem reconstruct_zero (n K D : ℕ) (B : List (List ℝ)) (mean : List ℝ)
    (hK : 0 < K) (hBlen : B.length = K) (hBrows : ∀ row ∈ B, row.length = D)
    (hmean : mean.length = D) :
    reconstruct (List.replicate n (List.replicate K 0)) B mean =
      some (List.replicate n mean) := by
  have hB : B ≠ [] := by
    intro h
    rw [h] at hBlen
    simp at hBlen
    omega
  have hD : (B.headD []).length = D := hBrows _ (headD_mem B [] hB)
  have hall : (List.replicate n (List.replicate K (0:ℝ))).all
      (fun r => r.length = B.length) = true := by
    rw [List.all_eq_true]
    intro r hr
    rw [List.eq_of_mem_replicate hr]
    simp [hBlen]
  have hrow : (List.range (B.headD []).length).map
      (fun d => (List.zipWith (fun x row => x * row.getD d 0)
        (List.replicate K (0:ℝ)) B).sum) = List.replicate D (0:ℝ) := by
    apply List.eq_replicate_iff.mpr
    constructor
    · rw [List.length_map, List.length_range, hD]
    · intro x hx
      simp only [List.mem_map] at hx
      obtain ⟨d, _, he⟩ := hx
      rw [← he, zip_sum_zero]
  have hz : bcastAll (· + ·) mean (List.replicate n (List.replicate D (0:ℝ))) =
      some (List.replicate n mean) := by
    rw [bcastAll_zip _ _ _
      (fun r hr => by rw [List.eq_of_mem_replicate hr]; simp [hmean]),
      List.map_replicate]
    have : List.zipWith (· + ·) (List.replicate D (0:ℝ)) mean = mean := by
      rw [← hmean]
      exact zipWith_zero_add mean
    rw [this]
  unfold reconstruct matmul
  rw [if_pos hall, List.map_replicate, hrow, Option.some_bind, hz]

/-! Behaviour of `pointcloud2surface` and of the write loop. -/

theorem pointcloud2surface_ok (xs : List ℝ) (rows : List (ℝ × ℝ × ℝ)) (m : Mesh)
    (hr : reshape3 xs = some rows) (hle : m.points.length ≤ rows.length) :
    pointcloud2surface (.flat xs) m = .ok ⟨rows.take m.points.length, m.cells⟩ := by
  simp only [pointcloud2surface, hr]
  rw [if_pos hle]

theorem pointcloud2surface_valueError (xs : List ℝ) (m : Mesh)
    (h : xs.length % 3 ≠ 0) :
    pointcloud2surface (.flat xs) m = .error .valueError := by
  simp only [pointcloud2surface, reshape3_none_of_mod xs h]

theorem pointcloud2surface_indexError (xs : List ℝ) (rows : List (ℝ × ℝ × ℝ))
    (m : Mesh) (hr : reshape3 xs = some rows)
    (hlt : rows.length < m.points.length) :
    pointcloud2surface (.flat xs) m = .error .indexError := by
  simp only [pointcloud2surface, hr]
  rw [if_neg (by omega)]

theorem pointcloud2surface_shaped (rows : List (ℝ × ℝ × ℝ)) (m : Mesh)
    (h : rows.length = m.points.length) :
    pointcloud2surface (.shaped rows) m = .ok ⟨rows, m.cells⟩ := by
  simp only [pointcloud2surface]
  rw [if_pos (le_of_eq h.symm), ← h]
  simp

theorem genLoopRef_spec (r : ℕ) (pcs : List (List ℝ)) (h : ℕ → Mesh)
    (i0 V : ℕ) (hV : (h r).points.length = V)
    (hpcs : ∀ pc ∈ pcs, ∃ rows, reshape3 pc = some rows ∧ V ≤ rows.length) :
    ∃ evs hf, genLoopRef r pcs h i0 = some (evs, hf) ∧
      evs.length = pcs.length ∧
      (∀ t, t < pcs.length → ∀ rows, reshape3 (pcs.getD t []) = some rows →
        evs.getD t .mkdirOutput =
          .writeFile (i0 + t) ⟨rows.take V, (h r).cells⟩) ∧
      (∀ s, s ≠ r → hf s = h s) ∧
      (pcs = [] → hf = h) ∧
      (∀ rows, pcs ≠ [] →
        reshape3 (pcs.getD (pcs.length - 1) []) = some rows →
        hf r = ⟨rows.take V, (h r).cells⟩) ∧
      (∀ e ∈ evs, ∃ idx mm, e = .writeFile idx mm) := by
  induction pcs generalizing h i0 with
  | nil =>
    refine ⟨[], h, rfl, rfl, ?_, fun s _ => rfl, fun _ => rfl, ?_, ?_⟩
    · intro t ht
      simp at ht
    · intro rows hne
      exact absurd rfl hne
    · intro e he
      simp at he
  | cons pc rest ih =>
    obtain ⟨rows, hrows, hle⟩ := hpcs pc (by simp)
    have hp2s : pointcloud2surface (.flat pc) (h r) =
        .ok ⟨rows.take V, (h r).cells⟩ := by
      have := pointcloud2surface_ok pc rows (h r) hrows (by omega)
      rwa [hV] at this
    have href : pointcloud2surfaceRef (.flat pc) r h =
        some (r, Function.update h r ⟨rows.take V, (h r).cells⟩) := by
      unfold pointcloud2surfaceRef
      rw [hp2s]
    have hupd : Function.update h r (⟨rows.take V, (h r).cells⟩ : Mesh) r =
        ⟨rows.take V, (h r).cells⟩ :=
      Function.update_same r _ h
    have hV2 : ((Function.update h r (⟨rows.take V, (h r).cells⟩ : Mesh)) r).points.length = V := by
      rw [hupd]
      show (rows.take V).length = V
      rw [List.length_take]
      exact Nat.min_eq_left hle
    have hcells2 : ((Function.update h r (⟨rows.take V, (h r).cells⟩ : Mesh)) r).cells =
        (h r).cells := by
      rw [hupd]
    obtain ⟨evs, hf, hrec, hlen, hev, hframe, hnil2, hlast, hkinds⟩ :=
      ih (Function.update h r ⟨rows.take V, (h r).cells⟩) (i0 + 1) hV2
        (fun pc2 hpc2 => hpcs pc2 (by simp [hpc2]))
    refine ⟨.writeFile i0 ((Function.update h r (⟨rows.take V, (h r).cells⟩ : Mesh)) r) :: evs,
      hf, ?_, by simp [hlen], ?_, ?_, ?_, ?_, ?_⟩
    · simp only [genLoopRef, href, hrec]
    · intro t ht rows2 hr2
      cases t with
      | zero =>
        rw [List.getD_cons_zero] at hr2 ⊢
        rw [hrows] at hr2
        cases hr2
        rw [hupd, Nat.add_zero]
      | succ u =>
        rw [List.getD_cons_succ] at hr2 ⊢
        rw [hev u (by simpa using ht) rows2 hr2, hcells2]
        congr 1
        omega
    · intro s hs
      rw [hframe s hs, Function.update_noteq hs _ h]
    · intro hcontra
      simp at hcontra
    · intro rows2 _ hr2
      cases rest with
      | nil =>
        rw [hnil2 rfl, hupd]
        simp only [List.length_cons, List.length_nil, Nat.add_sub_cancel,
          List.getD_cons_zero] at hr2
        rw [hrows] at hr2
        cases hr2
        rfl
      | cons q qs =>
        have hne : (q :: qs : List (List ℝ)) ≠ [] := by simp
        have hidx : (pc :: q :: qs).length - 1 = ((q :: qs).length - 1) + 1 := by
          simp
        rw [hidx, List.getD_cons_succ] at hr2
        rw [hlast rows2 hne hr2, hcells2]
    · intro e he
      cases he with
      | head => exact ⟨i0, _, rfl⟩
      | tail _ hmem => exact hkinds e hmem

/-! The validated success path of `generate_synthetic_mesh`. -/

theorem generate_success (env : Env) (draws : ℕ → ℕ → ℝ) (ns nc : ℤ) (b : ℝ)
    (D : ℕ) (hin : env.inputExists = true)
    (hns : 0 < ns) (hnc : 0 < nc) (hnc95 : nc < 95)
    (hb : b = -1 ∨ (0 < b ∧ b ≤ 5))
    (hev : nc.toNat ≤ env.explained_variance.length)
    (hcomps : nc.toNat ≤ env.components.length)
    (hrows : ∀ row ∈ env.components, row.length = D)
    (hmean : env.mean.length = D)
    (hD3 : D % 3 = 0)
    (hVD : env.meanMesh.points.length ≤ D / 3) :
    ∃ ws, generate_synthetic_mesh env draws ns nc b =
        (preEvents env ++ ws, .returnedNone) ∧
      ws.length = ns.toNat ∧
      (∀ e ∈ ws, ∃ idx mm, e = Event.writeFile idx mm) := by
  have hKpos : 0 < nc.toNat := by omega
  have hevlen : (env.explained_variance.take nc.toNat).length = nc.toNat := by
    rw [List.length_take]
    exact Nat.min_eq_left hev
  obtain ⟨s, hs, hslen, hsrows, _, _⟩ :=
    sample_spec ns.toNat nc.toNat draws (env.explained_variance.take nc.toNat)
      b hevlen
  have htakelen : (env.components.take nc.toNat).length = nc.toNat := by
    rw [List.length_take]
    exact Nat.min_eq_left hcomps
  have hBne : env.components.take nc.toNat ≠ [] := by
    intro hcontra
    rw [hcontra] at htakelen
    simp at htakelen
    omega
  have hBrows : ∀ row ∈ env.components.take nc.toNat, row.length = D :=
    fun row hrow => hrows row (List.mem_of_mem_take hrow)
  obtain ⟨P, hP, hPlen, hProws, _⟩ :=
    reconstruct_spec s (env.components.take nc.toNat) env.mean D
      (fun r hr => by rw [hsrows r hr, htakelen]) hBne hBrows hmean
  have hpcs : ∀ pc ∈ P, ∃ rows, reshape3 pc = some rows ∧
      env.meanMesh.points.length ≤ rows.length := by
    intro pc hpc
    have hlenD : pc.length = D := hProws pc hpc
    obtain ⟨rows, hrows2⟩ := reshape3_of_mod pc (by rw [hlenD]; exact hD3)
    have := reshape3_some_length pc rows hrows2
    exact ⟨rows, hrows2, by omega⟩
  obtain ⟨evs, hf, hloop, hlooplen, _, _, _, _, hkinds⟩ :=
    genLoopRef_spec 0 P (fun _ => env.meanMesh) 0 env.meanMesh.points.length
      rfl hpcs
  refine ⟨evs, ?_, by rw [hlooplen, hPlen, hslen], hkinds⟩
  unfold generate_synthetic_mesh
  rw [if_neg (by simp [hin]), if_neg (by omega), if_neg (by omega),
    if_neg (not_not_intro hb), hs, Option.some_bind, hP]
  simp only [hloop]

/-! Claim theorems. -/

/-- C1: for every positive number of samples, every component count K with
0 < K < 95, every non-negative explained-variance vector of length exactly
K, and every boundary b in (0, 5], every entry of the matrix returned by
`sample` lying in column j is inside the interval from -b·√(ev j) to
b·√(ev j), for every draw of the underlying normal variates: the clip to
[-b, b] is applied to the raw draws before the per-column scaling by
√(ev j). -/
theorem sample_clipped_bounds (n K : ℕ) (draws : ℕ → ℕ → ℝ) (ev : List ℝ)
    (b : ℝ) (hn : 0 < n) (hK : 0 < K) (hK95 : K < 95) (hlen : ev.length = K)
    (hev : ∀ x ∈ ev, 0 ≤ x) (hb0 : 0 < b) (hb5 : b ≤ 5) :
    ∃ res, sample n K draws ev b = some res ∧
      ∀ i j, i < n → j < K →
        -(b * Real.sqrt (ev.getD j 0)) ≤ entry res i j ∧
          entry res i j ≤ b * Real.sqrt (ev.getD j 0) := by
  have hbne : b ≠ -1 := by
    intro hcontra
    rw [hcontra] at hb0
    linarith
  obtain ⟨res, hres, _, _, _, hentry⟩ := sample_spec n K draws ev b hlen
  refine ⟨res, hres, ?_⟩
  intro i j hi hj
  rw [hentry hbne i j hi hj]
  have hs : 0 ≤ Real.sqrt (ev.getD j 0) := Real.sqrt_nonneg _
  have hc1 : clip (-b) b (draws i j) ≤ b := min_le_left _ _
  have hc2 : -b ≤ clip (-b) b (draws i j) :=
    le_min (by linarith) (le_max_left _ _)
  refine ⟨?_, mul_le_mul_of_nonneg_right hc1 hs⟩
  nlinarith [mul_nonneg (by linarith : (0:ℝ) ≤ clip (-b) b (draws i j) + b) hs]

/-- Witness for C1 at num_samples 1, one component of variance 1, boundary
1, and a constant raw draw of 2. -/
theorem sample_clipped_bounds_witness :
    (0 < 1 ∧ (0:ℝ) < 1 ∧ (1:ℝ) ≤ 5 ∧ ([1] : List ℝ).length = 1) ∧
    (∃ res, sample 1 1 (fun _ _ => 2) [1] 1 = some res ∧
      ∀ i j, i < 1 → j < 1 →
        -(1 * Real.sqrt (([1] : List ℝ).getD j 0)) ≤ entry res i j ∧
          entry res i j ≤ 1 * Real.sqrt (([1] : List ℝ).getD j 0)) :=
  ⟨⟨Nat.one_pos, one_pos, by norm_num, rfl⟩,
    sample_clipped_bounds 1 1 (fun _ _ => 2) [1] 1 Nat.one_pos Nat.one_pos
      (by norm_num) rfl
      (by intro x hx; rw [List.mem_singleton] at hx; rw [hx]; norm_num)
      one_pos (by norm_num)⟩

/-- C6 counterexample: with an explained-variance vector strictly longer
than the requested number of components (length 3 against K = 2) the
broadcast multiplication inside `sample` has incompatible shapes (2 vs 3),
so `sample` raises instead of returning a num_samples × K matrix. -/
theorem sample_longer_variance_fails :
    sample 1 2 (fun _ _ => 0) [1, 1, 1] (-1) = none := by
  have hne : ¬ ((-1:ℝ) ≠ -1) := by simp
  have hrow : bcastRow (· * ·) (([1, 1, 1] : List ℝ).map Real.sqrt)
      ([0, 0] : List ℝ) = none := by
    unfold bcastRow
    rw [if_neg (by simp), if_neg (by simp), if_neg (by simp)]
  have hraw : rawDraws 1 2 (fun _ _ => (0:ℝ)) = [[0, 0]] := by
    simp [rawDraws, List.range_succ]
  simp only [sample, if_neg hne, hraw, bcastAll, hrow]

/-- C6 (amended): for every valid num_samples, component count K and
boundary, and every non-negative explained-variance vector of length
EXACTLY K (the source's elementwise multiplication rejects a strictly
longer vector, as the counterexample shows), `sample` succeeds and
returns an n × K matrix whose column j is the (possibly clipped) draw
scaled by √(ev j). -/
theorem sample_shape_and_scaling (n K : ℕ) (draws : ℕ → ℕ → ℝ) (ev : List ℝ)
    (b : ℝ) (hn : 0 < n) (hK : 0 < K) (hK95 : K < 95)
    (hlen : ev.length = K) (hev : ∀ x ∈ ev, 0 ≤ x)
    (hb : b = -1 ∨ (0 < b ∧ b ≤ 5)) :
    ∃ res, sample n K draws ev b = some res ∧ res.length = n ∧
      (∀ r ∈ res, r.length = K) ∧
      (b = -1 → ∀ i j, i < n → j < K →
        entry res i j = draws i j * Real.sqrt (ev.getD j 0)) ∧
      (b ≠ -1 → ∀ i j, i < n → j < K →
        entry res i j = clip (-b) b (draws i j) * Real.sqrt (ev.getD j 0)) :=
  sample_spec n K draws ev b hlen

/-- Witness for the amended C6 at one sample, one component of variance 4,
unbounded sampling, and a constant raw draw of 3. -/
theorem sample_shape_and_scaling_witness :
    (0 < 1 ∧ ([4] : List ℝ).length = 1 ∧
      ((-1:ℝ) = -1 ∨ ((0:ℝ) < -1 ∧ (-1:ℝ) ≤ 5))) ∧
    (∃ res, sample 1 1 (fun _ _ => 3) [4] (-1) = some res ∧ res.length = 1 ∧
      (∀ r ∈ res, r.length = 1) ∧
      ((-1:ℝ) = -1 → ∀ i j, i < 1 → j < 1 →
        entry res i j = 3 * Real.sqrt (([4] : List ℝ).getD j 0)) ∧
      ((-1:ℝ) ≠ -1 → ∀ i j, i < 1 → j < 1 →
        entry res i j = clip (- -1) (-1) 3 * Real.sqrt (([4] : List ℝ).getD j 0))) :=
  ⟨⟨Nat.one_pos, rfl, Or.inl rfl⟩,
    sample_shape_and_scaling 1 1 (fun _ _ => 3) [4] (-1) Nat.one_pos
      Nat.one_pos (by norm_num) rfl
      (by intro x hx; rw [List.mem_singleton] at hx; rw [hx]; norm_num)
      (Or.inl rfl)⟩

/-- C2: for every flat point cloud of length exactly 3·V reals and every
already-shaped point cloud of exactly V rows (V the template's vertex
count), `pointcloud2surface` returns a mesh whose vertex i equals row i
of the (reshaped) point cloud for every i below V, in template vertex
order, with the cell connectivity lists taken unchanged from the
template. -/
theorem pointcloud2surface_exact (xs : List ℝ) (rows : List (ℝ × ℝ × ℝ))
    (m : Mesh) (hflat : xs.length = 3 * m.points.length)
    (hshaped : rows.length = m.points.length) :
    (∃ m1, pointcloud2surface (.flat xs) m = .ok m1 ∧ m1.cells = m.cells ∧
      m1.points.length = m.points.length ∧
      ∀ i, i < m.points.length →
        m1.points.getD i (0, 0, 0) =
          (xs.getD (3 * i) 0, xs.getD (3 * i + 1) 0, xs.getD (3 * i + 2) 0)) ∧
    pointcloud2surface (.shaped rows) m = .ok ⟨rows, m.cells⟩ := by
  constructor
  · obtain ⟨rows0, hrows0⟩ :=
      reshape3_of_mod xs (by rw [hflat]; exact Nat.mul_mod_right 3 _)
    have hlen0 : xs.length = 3 * rows0.length :=
      reshape3_some_length xs rows0 hrows0
    refine ⟨⟨rows0.take m.points.length, m.cells⟩,
      pointcloud2surface_ok xs rows0 m hrows0 (by omega), rfl, ?_, ?_⟩
    · show (rows0.take m.points.length).length = m.points.length
      rw [List.length_take]
      exact Nat.min_eq_left (by omega)
    · intro i hi
      show (rows0.take m.points.length).getD i (0, 0, 0) = _
      rw [getD_take _ _ i _ hi]
      exact reshape3_some_getD xs rows0 hrows0 i (by omega) _
  · exact pointcloud2surface_shaped rows m hshaped

/-- Witness for C2 at a one-vertex template and the point clouds [1, 2, 3]
and [(7, 8, 9)]. -/
theorem pointcloud2surface_exact_witness :
    (([1, 2, 3] : List ℝ).length =
        3 * (Mesh.points ⟨[(5, 5, 5)], [[0, 0]]⟩).length ∧
      ([((7:ℝ), (8:ℝ), (9:ℝ))]).length =
        (Mesh.points ⟨[(5, 5, 5)], [[0, 0]]⟩).length) ∧
    ((∃ m1, pointcloud2surface (.flat [1, 2, 3]) ⟨[(5, 5, 5)], [[0, 0]]⟩ =
        .ok m1 ∧ m1.cells = (Mesh.cells ⟨[(5, 5, 5)], [[0, 0]]⟩) ∧
      m1.points.length = (Mesh.points ⟨[(5, 5, 5)], [[0, 0]]⟩).length ∧
      ∀ i, i < (Mesh.points ⟨[(5, 5, 5)], [[0, 0]]⟩).length →
        m1.points.getD i (0, 0, 0) =
          (([1, 2, 3] : List ℝ).getD (3 * i) 0,
            ([1, 2, 3] : List ℝ).getD (3 * i + 1) 0,
            ([1, 2, 3] : List ℝ).getD (3 * i + 2) 0)) ∧
    pointcloud2surface (.shaped [(7, 8, 9)]) ⟨[(5, 5, 5)], [[0, 0]]⟩ =
      .ok ⟨[(7, 8, 9)], (Mesh.cells ⟨[(5, 5, 5)], [[0, 0]]⟩)⟩) :=
  ⟨⟨rfl, rfl⟩,
    pointcloud2surface_exact [1, 2, 3] [(7, 8, 9)] ⟨[(5, 5, 5)], [[0, 0]]⟩
      rfl rfl⟩

/-- C5 counterexample: a flat point cloud of 6 reals (2 rows) against a
template of 1 vertex has a reshaped vertex count different from the
template's, yet `pointcloud2surface` succeeds, silently using only the
first row, instead of failing. -/
theorem pointcloud2surface_truncates_silently :
    pointcloud2surface (.flat [0, 0, 0, 1, 1, 1]) ⟨[(5, 5, 5)], [[0]]⟩ =
      .ok ⟨[(0, 0, 0)], [[0]]⟩ := rfl

/-- C5 (amended): a flat point cloud whose length is not a multiple of 3
makes `pointcloud2surface` fail with the reshape error; a reshaped row
count smaller than the template's vertex count makes it fail with the
out-of-bounds index error; but a row count larger than the template's
vertex count is accepted, the extra rows being silently dropped (the
counterexample shows the original no-truncation claim fails there). -/
theorem pointcloud2surface_shape_behaviour (xs : List ℝ) (m : Mesh) :
    (xs.length % 3 ≠ 0 →
      pointcloud2surface (.flat xs) m = .error .valueError) ∧
    (∀ rows, reshape3 xs = some rows → rows.length < m.points.length →
      pointcloud2surface (.flat xs) m = .error .indexError) ∧
    (∀ rows, reshape3 xs = some rows → m.points.length ≤ rows.length →
      pointcloud2surface (.flat xs) m =
        .ok ⟨rows.take m.points.length, m.cells⟩) :=
  ⟨fun h => pointcloud2surface_valueError xs m h,
    fun rows hr hlt => pointcloud2surface_indexError xs rows m hr hlt,
    fun rows hr hle => pointcloud2surface_ok xs rows m hr hle⟩

/-- Witness for the amended C5: a flat point cloud of 2 reals is rejected
with the reshape error. -/
theorem pointcloud2surface_shape_behaviour_witness :
    ([1, 1] : List ℝ).length % 3 ≠ 0 ∧
    pointcloud2surface (.flat [1, 1]) ⟨[], []⟩ = .error .valueError :=
  ⟨by decide,
    (pointcloud2surface_shape_behaviour [1, 1] ⟨[], []⟩).1 (by decide)⟩

/-- C3: reconstruction is the exact affine map samples·components + mean,
deterministic in its inputs: with the all-zero coefficient matrix every
reconstructed row equals mean exactly, and in general entry (i, d) is
the inner product of coefficient row i with component column d plus
mean d. -/
theorem reconstruct_is_affine (n K D : ℕ) (B : List (List ℝ))
    (mean : List ℝ) (hK : 0 < K) (hBlen : B.length = K)
    (hBrows : ∀ row ∈ B, row.length = D) (hmean : mean.length = D) :
    reconstruct (List.replicate n (List.replicate K 0)) B mean =
      some (List.replicate n mean) ∧
    ∀ A, (∀ r ∈ A, r.length = K) →
      ∃ P, reconstruct A B mean = some P ∧ P.length = A.length ∧
        ∀ i dd, i < A.length → dd < D →
          entry P i dd =
            (∑ k ∈ Finset.range K, entry A i k * entry B k dd) +
              mean.getD dd 0 := by
  refine ⟨reconstruct_zero n K D B mean hK hBlen hBrows hmean, ?_⟩
  intro A hA
  have hBne : B ≠ [] := by
    intro h
    rw [h] at hBlen
    simp at hBlen
    omega
  obtain ⟨P, h1, h2, _, h4⟩ :=
    reconstruct_spec A B mean D (fun r hr => by rw [hA r hr, hBlen])
      hBne hBrows hmean
  refine ⟨P, h1, h2, ?_⟩
  rwa [hBlen] at h4

/-- Witness for C3 at one sample, one component [2] and mean [3]. -/
theorem reconstruct_is_affine_witness :
    (0 < 1 ∧ ([[2]] : List (List ℝ)).length = 1 ∧
      ([3] : List ℝ).length = 1) ∧
    (reconstruct (List.replicate 1 (List.replicate 1 0)) [[2]] [3] =
        some (List.replicate 1 [3]) ∧
      ∀ A, (∀ r ∈ A, r.length = 1) →
        ∃ P, reconstruct A [[2]] [3] = some P ∧ P.length = A.length ∧
          ∀ i dd, i < A.length → dd < 1 →
            entry P i dd =
              (∑ k ∈ Finset.range 1,
                entry A i k * entry ([[2]] : List (List ℝ)) k dd) +
                ([3] : List ℝ).getD dd 0) :=
  ⟨⟨Nat.one_pos, rfl, rfl⟩,
    reconstruct_is_affine 1 1 1 [[2]] [3] Nat.one_pos rfl
      (by intro row hrow; rw [List.mem_singleton] at hrow; rw [hrow]; rfl)
      rfl⟩

/-- The write loop emits only write events, whatever its inputs. -/
theorem genLoopRef_events_write (r : ℕ) (pcs : List (List ℝ)) (h : ℕ → Mesh)
    (i0 : ℕ) (evs : List Event) (hf : ℕ → Mesh)
    (hrun : genLoopRef r pcs h i0 = some (evs, hf)) :
    ∀ e ∈ evs, ∃ idx mm, e = Event.writeFile idx mm := by
  induction pcs generalizing h i0 evs with
  | nil =>
    simp only [genLoopRef, Option.some_inj, Prod.mk.injEq] at hrun
    rw [← hrun.1]
    intro e he
    simp at he
  | cons pc rest ih =>
    simp only [genLoopRef] at hrun
    cases hm : pointcloud2surfaceRef (.flat pc) r h with
    | none =>
      simp only [hm] at hrun
      exact Option.noConfusion hrun
    | some pr =>
      obtain ⟨rs, h2⟩ := pr
      simp only [hm] at hrun
      cases hr2 : genLoopRef r rest h2 (i0 + 1) with
      | none =>
        simp only [hr2] at hrun
        exact Option.noConfusion hrun
      | some pr2 =>
        obtain ⟨evs2, hf2⟩ := pr2
        simp only [hr2, Option.some_inj, Prod.mk.injEq] at hrun
        rw [← hrun.1]
        intro e he
        cases he with
        | head => exact ⟨i0, _, rfl⟩
        | tail _ hmem =>
          rw [hrun.2] at hr2
          exact ih h2 (i0 + 1) evs2 hr2 e hmem

/-- C4: with an existing input path, `generate_synthetic_mesh` validates
its parameters in source order, short-circuiting with a printed message
and the returned-False result (never an exception) at the first
violation: num_samples ≤ 0 is reported as the sample-count error before
the other parameters are even looked at; num_components 0 and 95 are
both reported as the component-count error; with num_components 94 that
check passes and an invalid boundary (neither -1 nor in (0, 5]) is
reported as the boundary error; with num_components 94 the
component-count error is never emitted. -/
theorem generate_validates_in_order (env : Env) (draws : ℕ → ℕ → ℝ)
    (hin : env.inputExists = true) :
    (∀ ns nc b, ns ≤ 0 → generate_synthetic_mesh env draws ns nc b =
      (preEvents env ++ [.printError .invalidSampleCount], .returnedFalse)) ∧
    (∀ ns b, 0 < ns → generate_synthetic_mesh env draws ns 0 b =
      (preEvents env ++ [.printError .invalidComponentCount], .returnedFalse)) ∧
    (∀ ns b, 0 < ns → generate_synthetic_mesh env draws ns 95 b =
      (preEvents env ++ [.printError .invalidComponentCount], .returnedFalse)) ∧
    (∀ ns b, 0 < ns → ¬ (b = -1 ∨ (0 < b ∧ b ≤ 5)) →
      generate_synthetic_mesh env draws ns 94 b =
        (preEvents env ++ [.printError .invalidBoundary], .returnedFalse)) ∧
    (∀ ns b, 0 < ns →
      Event.printError .invalidComponentCount ∉
        (generate_synthetic_mesh env draws ns 94 b).1) := by
  refine ⟨?_, ?_, ?_, ?_, ?_⟩
  · intro ns nc b hns
    unfold generate_synthetic_mesh
    rw [if_neg (by simp [hin]), if_pos hns]
  · intro ns b hns
    unfold generate_synthetic_mesh
    rw [if_neg (by simp [hin]), if_neg (by omega), if_pos (by omega)]
  · intro ns b hns
    unfold generate_synthetic_mesh
    rw [if_neg (by simp [hin]), if_neg (by omega), if_pos (by omega)]
  · intro ns b hns hb
    unfold generate_synthetic_mesh
    rw [if_neg (by simp [hin]), if_neg (by omega), if_neg (by omega),
      if_pos hb]
  · intro ns b hns
    have hpre : Event.printError .invalidComponentCount ∉ preEvents env := by
      unfold preEvents
      by_cases hout : env.outputExists
      · rw [if_pos hout]; simp
      · rw [if_neg hout]; simp
    by_cases hb : b = -1 ∨ (0 < b ∧ b ≤ 5)
    · unfold generate_synthetic_mesh
      rw [if_neg (by simp [hin]), if_neg (by omega), if_neg (by omega),
        if_neg (not_not_intro hb)]
      cases hpipe : (sample ns.toNat (94:ℤ).toNat draws
          (env.explained_variance.take (94:ℤ).toNat) b).bind
          (fun s => reconstruct s (env.components.take (94:ℤ).toNat)
            env.mean) with
      | none => simpa using hpre
      | some pcs =>
        cases hloop : genLoopRef 0 pcs (fun _ => env.meanMesh) 0 with
        | none =>
          simp only [hloop]
          simpa using hpre
        | some pr =>
          obtain ⟨ws, hf⟩ := pr
          simp only [hloop]
          have hws := genLoopRef_events_write 0 pcs (fun _ => env.meanMesh)
            0 ws hf hloop
          intro hcontra
          simp only [List.mem_append] at hcontra
          rcases hcontra with hl | hr
          · exact hpre hl
          · obtain ⟨idx, mm, hwf⟩ := hws _ hr
            exact Event.noConfusion hwf
    · unfold generate_synthetic_mesh
      rw [if_neg (by simp [hin]), if_neg (by omega), if_neg (by omega),
        if_pos hb]
      intro hcontra
      simp only [List.mem_append] at hcontra
      rcases hcontra with hl | hr
      · exact hpre hl
      · simp at hr

/-- Witness for C4 at a concrete environment with an existing input path,
showing the sample-count failure at 0 samples. -/
theorem generate_validates_in_order_witness :
    (Env.inputExists ⟨true, true, [], [], [], ⟨[], []⟩⟩ = true) ∧
    generate_synthetic_mesh ⟨true, true, [], [], [], ⟨[], []⟩⟩
        (fun _ _ => 0) 0 94 (-1) =
      (preEvents ⟨true, true, [], [], [], ⟨[], []⟩⟩ ++
        [.printError .invalidSampleCount], .returnedFalse) :=
  ⟨rfl,
    (generate_validates_in_order ⟨true, true, [], [], [], ⟨[], []⟩⟩
      (fun _ _ => 0) rfl).1 0 94 (-1) (by norm_num)⟩

/-- C7: `generate_synthetic_mesh` returns a success flag rather than
raising: on every validation failure (missing input path or any of the
three parameter checks) the call evaluates to the boolean failure result
False, while a completed run over a well-formed model evaluates to the
implicit Python return value None, which is a value distinguishable by
the caller from the failure result False. -/
theorem generate_success_flag (env : Env) (draws : ℕ → ℕ → ℝ)
    (ns nc : ℤ) (b : ℝ) :
    ((env.inputExists = false ∨ ns ≤ 0 ∨ 95 ≤ nc ∨ nc ≤ 0 ∨
        ¬ (b = -1 ∨ (0 < b ∧ b ≤ 5))) →
      (generate_synthetic_mesh env draws ns nc b).2 = .returnedFalse) ∧
    (∀ D : ℕ, env.inputExists = true → 0 < ns → 0 < nc → nc < 95 →
      (b = -1 ∨ (0 < b ∧ b ≤ 5)) →
      nc.toNat ≤ env.explained_variance.length →
      nc.toNat ≤ env.components.length →
      (∀ row ∈ env.components, row.length = D) →
      env.mean.length = D → D % 3 = 0 →
      env.meanMesh.points.length ≤ D / 3 →
      (generate_synthetic_mesh env draws ns nc b).2 = .returnedNone) ∧
    GenOutcome.returnedNone ≠ GenOutcome.returnedFalse := by
  refine ⟨?_, ?_, by decide⟩
  · intro hfail
    unfold generate_synthetic_mesh
    by_cases h1 : env.inputExists = false
    · rw [if_pos h1]
    · rw [if_neg h1]
      by_cases h2 : ns ≤ 0
      · rw [if_pos h2]
      · rw [if_neg h2]
        by_cases h3 : 95 ≤ nc ∨ nc ≤ 0
        · rw [if_pos h3]
        · rw [if_neg h3]
          have h4 : ¬ (b = -1 ∨ (0 < b ∧ b ≤ 5)) := by
            rcases hfail with h | h | h | h | h
            · exact absurd h h1
            · exact absurd h h2
            · exact absurd (Or.inl h) h3
            · exact absurd (Or.inr h) h3
            · exact h
          rw [if_pos h4]
  · intro D hin hns hnc hnc95 hb hev hcomps hrows hmean hD3 hVD
    obtain ⟨ws, hgen, _, _⟩ := generate_success env draws ns nc b D hin hns
      hnc hnc95 hb hev hcomps hrows hmean hD3 hVD
    rw [hgen]

/-- Witness for C7: a failing call (missing input path) returns False and
a complete run over a one-vertex, one-component model returns None. -/
theorem generate_success_flag_witness :
    (generate_synthetic_mesh ⟨false, false, [], [], [], ⟨[], []⟩⟩
        (fun _ _ => 0) 1 94 (-1)).2 = .returnedFalse ∧
    (generate_synthetic_mesh
        ⟨true, true, [[0, 0, 0]], [0, 0, 0], [1], ⟨[(0, 0, 0)], [[0]]⟩⟩
        (fun _ _ => 0) 1 1 (-1)).2 = .returnedNone :=
  ⟨(generate_success_flag ⟨false, false, [], [], [], ⟨[], []⟩⟩
      (fun _ _ => 0) 1 94 (-1)).1 (Or.inl rfl),
    (generate_success_flag
        ⟨true, true, [[0, 0, 0]], [0, 0, 0], [1], ⟨[(0, 0, 0)], [[0]]⟩⟩
        (fun _ _ => 0) 1 1 (-1)).2.1 3 rfl (by norm_num) (by norm_num)
      (by norm_num) (Or.inl rfl) (by simp) (by simp)
      (by intro row hrow; rw [List.mem_singleton] at hrow; rw [hrow]; rfl)
      rfl rfl (by simp)⟩

/-- C9: `pointcloud2surface` mutates the mesh object behind the reference
it is handed and returns that same reference, no copy being made: after
the call the store holds, at the argument's address, the mesh with the
point cloud's vertex positions, every other address being untouched.
Consequently the write loop of `generate_synthetic_mesh`, which passes
the single loaded template reference to every iteration, overwrites the
same object's vertex coordinates each time: the mesh written at step t
carries the coordinates of point cloud t only, and after the loop the
template object holds the coordinates of the last point cloud. -/
theorem pointcloud2surface_in_place (pc : PC) (r : ℕ) (h : ℕ → Mesh)
    (V : ℕ) (hV : (h r).points.length = V) :
    (∀ m1, pointcloud2surface pc (h r) = .ok m1 →
      pointcloud2surfaceRef pc r h = some (r, Function.update h r m1) ∧
      Function.update h r m1 r = m1 ∧
      ∀ s, s ≠ r → Function.update h r m1 s = h s) ∧
    (∀ pcs : List (List ℝ),
      (∀ p ∈ pcs, ∃ rows, reshape3 p = some rows ∧ V ≤ rows.length) →
      ∃ evs hf, genLoopRef r pcs h 0 = some (evs, hf) ∧
        (∀ t, t < pcs.length → ∀ rows, reshape3 (pcs.getD t []) = some rows →
          evs.getD t .mkdirOutput =
            .writeFile t ⟨rows.take V, (h r).cells⟩) ∧
        (∀ s, s ≠ r → hf s = h s) ∧
        (∀ rows, pcs ≠ [] →
          reshape3 (pcs.getD (pcs.length - 1) []) = some rows →
          hf r = ⟨rows.take V, (h r).cells⟩)) := by
  constructor
  · intro m1 hok
    refine ⟨?_, Function.update_same r m1 h,
      fun s hs => Function.update_noteq hs m1 h⟩
    unfold pointcloud2surfaceRef
    rw [hok]
  · intro pcs hpcs
    obtain ⟨evs, hf, h1, _, h3, h4, _, h6, _⟩ :=
      genLoopRef_spec r pcs h 0 V hV hpcs
    refine ⟨evs, hf, h1, ?_, h4, h6⟩
    intro t ht rows hr
    have := h3 t ht rows hr
    rwa [Nat.zero_add] at this

/-- Witness for C9 at a store holding a one-vertex template at address 0
and a single point cloud [1, 2, 3]. -/
theorem pointcloud2surface_in_place_witness :
    ((fun _ : ℕ => (⟨[(5, 5, 5)], [[0]]⟩ : Mesh)) 0).points.length = 1 ∧
    (∀ m1, pointcloud2surface (.flat [1, 2, 3])
        ((fun _ : ℕ => (⟨[(5, 5, 5)], [[0]]⟩ : Mesh)) 0) = .ok m1 →
      pointcloud2surfaceRef (.flat [1, 2, 3]) 0
          (fun _ : ℕ => (⟨[(5, 5, 5)], [[0]]⟩ : Mesh)) =
        some (0, Function.update (fun _ : ℕ => (⟨[(5, 5, 5)], [[0]]⟩ : Mesh)) 0 m1) ∧
      Function.update (fun _ : ℕ => (⟨[(5, 5, 5)], [[0]]⟩ : Mesh)) 0 m1 0 = m1 ∧
      ∀ s, s ≠ 0 →
        Function.update (fun _ : ℕ => (⟨[(5, 5, 5)], [[0]]⟩ : Mesh)) 0 m1 s =
          (fun _ : ℕ => (⟨[(5, 5, 5)], [[0]]⟩ : Mesh)) s) ∧
    (∀ pcs : List (List ℝ),
      (∀ p ∈ pcs, ∃ rows, reshape3 p = some rows ∧ 1 ≤ rows.length) →
      ∃ evs hf, genLoopRef 0 pcs
          (fun _ : ℕ => (⟨[(5, 5, 5)], [[0]]⟩ : Mesh)) 0 = some (evs, hf) ∧
        (∀ t, t < pcs.length → ∀ rows, reshape3 (pcs.getD t []) = some rows →
          evs.getD t .mkdirOutput =
            .writeFile t ⟨rows.take 1,
              ((fun _ : ℕ => (⟨[(5, 5, 5)], [[0]]⟩ : Mesh)) 0).cells⟩) ∧
        (∀ s, s ≠ 0 → hf s = (fun _ : ℕ => (⟨[(5, 5, 5)], [[0]]⟩ : Mesh)) s) ∧
        (∀ rows, pcs ≠ [] →
          reshape3 (pcs.getD (pcs.length - 1) []) = some rows →
          hf 0 = ⟨rows.take 1,
            ((fun _ : ℕ => (⟨[(5, 5, 5)], [[0]]⟩ : Mesh)) 0).cells⟩)) :=
  ⟨rfl, pointcloud2surface_in_place (.flat [1, 2, 3]) 0
    (fun _ : ℕ => (⟨[(5, 5, 5)], [[0]]⟩ : Mesh)) 1 rfl⟩

/-- C10: when the input path exists and the output path does not,
`generate_synthetic_mesh` performs the mkdir side effect before
validating num_samples, num_components and boundary, so an invocation
failing any of those three validations still creates the output
directory (the trace is exactly the mkdir followed by the printed
validation error) while returning the failure result. -/
theorem generate_mkdir_despite_failure (env : Env) (draws : ℕ → ℕ → ℝ)
    (ns nc : ℤ) (b : ℝ) (hin : env.inputExists = true)
    (hout : env.outputExists = false)
    (hfail : ns ≤ 0 ∨ 95 ≤ nc ∨ nc ≤ 0 ∨ ¬ (b = -1 ∨ (0 < b ∧ b ≤ 5))) :
    ∃ e, e ≠ GenError.pathNotFound ∧
      (generate_synthetic_mesh env draws ns nc b).1 =
        [Event.mkdirOutput, Event.printError e] ∧
      (generate_synthetic_mesh env draws ns nc b).2 = .returnedFalse := by
  have hpre : preEvents env = [Event.mkdirOutput] := by
    unfold preEvents
    rw [if_neg (by simp [hout])]
  have hmain : ∃ e, e ≠ GenError.pathNotFound ∧
      generate_synthetic_mesh env draws ns nc b =
        (preEvents env ++ [Event.printError e], .returnedFalse) := by
    unfold generate_synthetic_mesh
    rw [if_neg (by simp [hin])]
    by_cases h2 : ns ≤ 0
    · exact ⟨.invalidSampleCount, by decide, by rw [if_pos h2]⟩
    · rw [if_neg h2]
      by_cases h3 : 95 ≤ nc ∨ nc ≤ 0
      · exact ⟨.invalidComponentCount, by decide, by rw [if_pos h3]⟩
      · rw [if_neg h3]
        have h4 : ¬ (b = -1 ∨ (0 < b ∧ b ≤ 5)) := by
          rcases hfail with h | h | h | h
          · exact absurd h h2
          · exact absurd (Or.inl h) h3
          · exact absurd (Or.inr h) h3
          · exact h
        exact ⟨.invalidBoundary, by decide, by rw [if_pos h4]⟩
  obtain ⟨e, hne, hgen⟩ := hmain
  refine ⟨e, hne, ?_, ?_⟩
  · rw [hgen, hpre]
    rfl
  · rw [hgen]

/-- Witness for C10: with an existing input path, a missing output
directory and zero samples, the directory is created and the
sample-count failure is reported. -/
theorem generate_mkdir_despite_failure_witness :
    (Env.inputExists ⟨true, false, [], [], [], ⟨[], []⟩⟩ = true ∧
      Env.outputExists ⟨true, false, [], [], [], ⟨[], []⟩⟩ = false) ∧
    ∃ e, e ≠ GenError.pathNotFound ∧
      (generate_synthetic_mesh ⟨true, false, [], [], [], ⟨[], []⟩⟩
          (fun _ _ => 0) 0 94 (-1)).1 =
        [Event.mkdirOutput, Event.printError e] ∧
      (generate_synthetic_mesh ⟨true, false, [], [], [], ⟨[], []⟩⟩
          (fun _ _ => 0) 0 94 (-1)).2 = .returnedFalse :=
  ⟨⟨rfl, rfl⟩,
    generate_mkdir_despite_failure ⟨true, false, [], [], [], ⟨[], []⟩⟩
      (fun _ _ => 0) 0 94 (-1) rfl rfl (Or.inl (by norm_num))⟩

end SSM
